import Mathlib

/-!
Verification of the aggregation-dedup-notify pipeline of monitor_autos.py.

The Python source is shallowly embedded: Python strings are Lean `String`
(lists of characters), SQLite's single `seen` table is a list of rows with
insert-or-ignore semantics, and the orchestration loops become folds.
Python's ASCII-relevant `str.lower` is modelled by mapping `Char.toLower`
over the characters (both lower only basic-latin letters on the inputs the
program works with).
-/

namespace MonitorAutos

/-- Python substring test helper: does the candidate list occur as the first
elements of the other list (needle begins at this position)? -/
def prefixAt : List Char → List Char → Bool
  | [], _ => true
  | _ :: _, [] => false
  | a :: as, b :: bs => a = b && prefixAt as bs

/-- Python `needle in haystack` on character lists: the needle occurs
contiguously somewhere in the haystack. -/
def infixAt (needle : List Char) : List Char → Bool
  | [] => needle.isEmpty
  | c :: cs => prefixAt needle (c :: cs) || infixAt needle cs

/-- Python `needle in haystack` on strings. -/
def strIn (needle haystack : String) : Bool :=
  infixAt needle.toList haystack.toList

/-- Python `s.lower()` (ASCII model, see module comment). -/
def lowerStr (s : String) : String :=
  String.mk (s.toList.map Char.toLower)

/-- Python `s[:n]` on strings (character slicing). -/
def strTake (s : String) (n : Nat) : String :=
  String.mk (s.toList.take n)

/- ----------------------------------------------------------------
   DB / caching (init_db, is_seen, mark_seen): the seen table keyed by link.
   ---------------------------------------------------------------- -/

/-- One row of the `seen` table created by init_db:
link (primary key), title, site, price, first_seen. -/
structure SeenRow where
  link : String
  title : String
  site : String
  price : String
  first_seen : Nat
deriving DecidableEq, Repr

/-- The `seen` table, in insertion order. -/
abbrev Store := List SeenRow

/-- is_seen (monitor_autos.py lines 160-163): SELECT 1 FROM seen WHERE link = ?. -/
def is_seen (store : Store) (link : String) : Bool :=
  store.any (fun r => r.link = link)

/-- mark_seen (lines 166-172): INSERT OR IGNORE INTO seen — the row is
appended only when no row with the same primary key `link` exists. -/
def mark_seen (store : Store) (link title site price : String) (ts : Nat) : Store :=
  if is_seen store link then store
  else store ++ [⟨link, title, site, price, ts⟩]

/- ----------------------------------------------------------------
   Classifier (text_contains_keywords, run_once lines 456-461).
   ---------------------------------------------------------------- -/

/-- Configuration values consumed by the pipeline (.env parsed at startup). -/
structure Config where
  brands : List String
  keywords : List String
  minYear : Int
  maxYear : Int
  minKm : Int
  maxKm : Int
  minPrice : Int
  maxPrice : Int
deriving Repr

/-- text_contains_keywords (lines 232-239): empty text fails fast, otherwise
any keyword, lowercased, occurring in the lowercased text suffices. -/
def text_contains_keywords (text : String) (keywords : List String) : Bool :=
  if text = "" then false
  else
    let t := lowerStr text
    keywords.any (fun k => strIn (lowerStr k) t)

/-- run_once line 456: textpool = " ".join([title or "", desc or ""]).lower(). -/
def textpool (title desc : String) : String :=
  lowerStr (title ++ " " ++ desc)

/-- run_once line 457: any(b.lower() in textpool for b in CAR_BRANDS_MODELS). -/
def brand_hit (cfg : Config) (tp : String) : Bool :=
  cfg.brands.any (fun b => strIn (lowerStr b) tp)

/-- run_once lines 456-461: a listing qualifies when a brand phrase or a
keyword phrase occurs in the pooled text. -/
def qualifies (cfg : Config) (title desc : String) : Bool :=
  brand_hit cfg (textpool title desc)
    || text_contains_keywords (textpool title desc) cfg.keywords

/- ----------------------------------------------------------------
   Link normalization and the per-listing pipeline step (lines 449-469).
   ---------------------------------------------------------------- -/

/-- Python `link.split("?")[0]`: the characters before the first question
mark. -/
def splitQ : List Char → List Char
  | [] => []
  | c :: cs => if c = '?' then [] else c :: splitQ cs

/-- run_once line 452: link_norm = link.split("?")[0]. -/
def linkNorm (link : String) : String :=
  String.mk (splitQ link.toList)

/-- A raw card as returned by scrape_site: (site, title, link, price, desc). -/
structure RawListing where
  site : String
  title : String
  link : String
  price : String
  desc : String
deriving DecidableEq, Repr

/-- An entry of all_new (lines 463-469). -/
structure NewMatch where
  site : String
  title : String
  link : String
  price : String
  desc_snippet : String
deriving DecidableEq, Repr

/-- The body of the per-listing loop of run_once (lines 449-469): skip empty
links, normalize, skip already-seen keys, and on a classifier hit record the
key and append the match. -/
def processListing (cfg : Config) (ts : Nat) (st : Store × List NewMatch)
    (l : RawListing) : Store × List NewMatch :=
  if l.link = "" then st
  else
    let k := linkNorm l.link
    if is_seen st.1 k then st
    else if qualifies cfg l.title l.desc then
      (mark_seen st.1 k l.title l.site l.price ts,
       st.2 ++ [⟨l.site, l.title, k, l.price,
                 if l.desc = "" then "" else strTake l.desc 250⟩])
    else st

/-- The per-listing loop over one batch of extracted cards, yielding the
updated store and this run's new-matches list. -/
def collectNew (cfg : Config) (ts : Nat) (store : Store)
    (found : List RawListing) : Store × List NewMatch :=
  found.foldl (processListing cfg ts) (store, [])

/- ----------------------------------------------------------------
   Notification dispatch loop (lines 488-499).
   ---------------------------------------------------------------- -/

/-- The send loop of run_once (lines 488-499), started at a given counter
value. The result is (number of send attempts made, final success counter):
the loop breaks as soon as the counter reaches the cap, and only a
successful send increments it. -/
def dispatchFrom (cap : Int) (send : NewMatch → Bool) :
    List NewMatch → Nat → Nat × Nat
  | [], count => (0, count)
  | m :: rest, count =>
    if cap ≤ (count : Int) then (0, count)
    else
      ((dispatchFrom cap send rest (if send m then count + 1 else count)).1 + 1,
       (dispatchFrom cap send rest (if send m then count + 1 else count)).2)

/-- The send loop as run_once enters it: counter starts at 0. -/
def dispatch (cap : Int) (send : NewMatch → Bool) (news : List NewMatch) :
    Nat × Nat :=
  dispatchFrom cap send news 0

/- ----------------------------------------------------------------
   Search-template substitution (run_once lines 421-439).
   ---------------------------------------------------------------- -/

/-- Python `"+".join(parts)` specialised to the plus separator. -/
def joinPlus : List String → String
  | [] => ""
  | [k] => k
  | k :: rest => k ++ "+" ++ joinPlus rest

/-- run_once line 422: kw = "+".join(KEYWORDS[:3]) if KEYWORDS else "". -/
def kwValue (keywords : List String) : String :=
  if keywords.isEmpty then "" else joinPlus (keywords.take 3)

/-- The format_kwargs dictionary of run_once (lines 424-435), as an
association list from placeholder name to substituted text. -/
def format_kwargs (cfg : Config) : List (String × String) :=
  [("year", toString cfg.minYear),
   ("min_year", toString cfg.minYear),
   ("max_year", toString cfg.maxYear),
   ("km", toString cfg.maxKm),
   ("min_km", toString cfg.minKm),
   ("max_km", toString cfg.maxKm),
   ("price", toString cfg.maxPrice),
   ("min_price", toString cfg.minPrice),
   ("max_price", toString cfg.maxPrice),
   ("kw", kwValue cfg.keywords)]

/-- Dictionary lookup in an association list (Python keyword-argument
lookup performed by str.format). -/
def lookupKw : List (String × String) → String → Option String
  | [], _ => none
  | (k, v) :: rest, n => if n = k then some v else lookupKw rest n

/-- Python `template.format(**format_kwargs)` on the character list, with
explicit recursion fuel (one unit per emitted token; the caller passes
length + 1 which always suffices). A doubled brace emits a literal brace; a
single open brace starts a replacement field read up to the next close
brace, whose name must resolve in the dictionary; a single close brace, an
unterminated field, or an unknown name raises (conversion and format-spec
suffixes inside a field are not modelled: such fields, like any field that
is not exactly a known key, take the error branch). -/
def formatAux (lk : String → Option String) : Nat → List Char → Option (List Char)
  | 0, _ => none
  | _ + 1, [] => some []
  | fuel + 1, c :: cs =>
    if c = '\x7b' then
      if cs.head? = some '\x7b' then
        (formatAux lk fuel cs.tail).map (fun r => '\x7b' :: r)
      else
        match cs.dropWhile (fun d => d ≠ '\x7d') with
        | [] => none
        | _ :: cs2 =>
          match lk (String.mk (cs.takeWhile (fun d => d ≠ '\x7d'))) with
          | some v => (formatAux lk fuel cs2).map (fun r => v.toList ++ r)
          | none => none
    else if c = '\x7d' then
      if cs.head? = some '\x7d' then
        (formatAux lk fuel cs.tail).map (fun r => '\x7d' :: r)
      else none
    else
      (formatAux lk fuel cs).map (fun r => c :: r)

/-- Python `template.format(**format_kwargs)`: `none` models a raised
exception. -/
def pyFormat (cfg : Config) (template : String) : Option String :=
  (formatAux (lookupKw (format_kwargs cfg)) (template.toList.length + 1)
    template.toList).map String.mk

/-- run_once lines 436-439: url = template.format(**format_kwargs), falling
back to the literal template on any exception. -/
def resolveTemplate (cfg : Config) (template : String) : String :=
  match pyFormat cfg template with
  | some url => url
  | none => template

/- ----------------------------------------------------------------
   send_whatsapp response handling (lines 194-203).
   ---------------------------------------------------------------- -/

/-- The decision kernel of send_whatsapp on a gateway response (lines
194-203): body_snip is the first 300 characters; HTTP 200 succeeds unless
"APIKey is invalid" occurs in the snippet or "error" occurs in the
lowercased snippet; any other status fails. -/
def sendOutcome (status : Nat) (body : String) : Bool :=
  let body_snip := strTake body 300
  if status = 200 then
    if strIn "APIKey is invalid" body_snip
        || strIn "error" (lowerStr body_snip) then false
    else true
  else false

/- ----------------------------------------------------------------
   Basic lemmas about the string helpers.
   ---------------------------------------------------------------- -/

theorem toList_mk (l : List Char) : (String.mk l).toList = l := rfl

theorem mk_toList (s : String) : String.mk s.toList = s := rfl

theorem toList_append (a b : String) : (a ++ b).toList = a.toList ++ b.toList := by
  cases a
  cases b
  rfl

theorem prefixAt_iff (n h : List Char) : prefixAt n h = true ↔ n <+: h := by
  induction n generalizing h with
  | nil =>
    simp only [prefixAt]
    exact ⟨fun _ => ⟨h, rfl⟩, fun _ => trivial⟩
  | cons a as ih =>
    cases h with
    | nil =>
      simp only [prefixAt]
      constructor
      · intro hfalse
        exact absurd hfalse (by simp)
      · intro ⟨t, ht⟩
        simp at ht
    | cons b bs =>
      simp [prefixAt, ih, List.cons_prefix_cons]

theorem infixAt_iff (n h : List Char) : infixAt n h = true ↔ n <:+: h := by
  induction h with
  | nil =>
    simp [infixAt, List.isEmpty_iff]
  | cons c cs ih =>
    simp [infixAt, prefixAt_iff, ih, List.infix_cons_iff]

theorem strIn_iff (n h : String) : strIn n h = true ↔ n.toList <:+: h.toList := by
  simp [strIn, infixAt_iff]

theorem char_toNat_ofNat {n : Nat} (h : n < 55296) : (Char.ofNat n).toNat = n := by
  rw [Char.ofNat, dif_pos (Or.inl h)]
  rfl

theorem char_toLower_idem (c : Char) : c.toLower.toLower = c.toLower := by
  simp only [Char.toLower]
  by_cases h : c.toNat ≥ 65 ∧ c.toNat ≤ 90
  · rw [if_pos h]
    have hv : (Char.ofNat (c.toNat + 32)).toNat = c.toNat + 32 :=
      char_toNat_ofNat (by omega)
    rw [if_neg]
    rw [hv]
    omega
  · rw [if_neg h, if_neg h]

theorem map_toLower_idem (l : List Char) :
    (l.map Char.toLower).map Char.toLower = l.map Char.toLower := by
  induction l with
  | nil => rfl
  | cons c cs ih => simp [char_toLower_idem, ih]

theorem lowerStr_idem (s : String) : lowerStr (lowerStr s) = lowerStr s := by
  simp only [lowerStr, toList_mk]
  rw [map_toLower_idem]

/-- Specification-side predicate: the phrase occurs in the text, comparing
case-insensitively (both sides lowercased). -/
def matchesCI (phrase text : String) : Prop :=
  (lowerStr phrase).toList <:+: (lowerStr text).toList

theorem textpool_ne_empty (title desc : String) : textpool title desc ≠ "" := by
  intro h
  have h2 := congrArg String.toList h
  simp only [textpool, lowerStr, toList_mk] at h2
  rw [toList_append, toList_append] at h2
  simp at h2

/- ----------------------------------------------------------------
   Store and pipeline lemmas.
   ---------------------------------------------------------------- -/

theorem is_seen_mark (st : Store) (k t s p : String) (ts : Nat) :
    is_seen (mark_seen st k t s p ts) k = true := by
  unfold mark_seen
  split
  · assumption
  · simp [is_seen, List.any_append]

theorem is_seen_mark_mono (st : Store) (k k2 t s p : String) (ts : Nat)
    (h : is_seen st k = true) : is_seen (mark_seen st k2 t s p ts) k = true := by
  unfold mark_seen
  split
  · exact h
  · simp [is_seen, List.any_append] at h ⊢
    exact Or.inl h

theorem processListing_mono (cfg : Config) (ts : Nat) (st : Store × List NewMatch)
    (l : RawListing) (k : String) (h : is_seen st.1 k = true) :
    is_seen (processListing cfg ts st l).1 k = true := by
  by_cases h1 : l.link = ""
  · simpa [processListing, h1] using h
  · by_cases h2 : is_seen st.1 (linkNorm l.link) = true
    · simpa [processListing, h1, h2] using h
    · by_cases h3 : qualifies cfg l.title l.desc = true
      · simp only [processListing, if_neg h1]
        rw [if_neg h2, if_pos h3]
        exact is_seen_mark_mono _ _ _ _ _ _ _ h
      · simp only [processListing, if_neg h1]
        rw [if_neg h2, if_neg h3]
        exact h

theorem foldl_is_seen_mono (cfg : Config) (ts : Nat) (found : List RawListing) :
    ∀ (st : Store) (ns : List NewMatch) (k : String), is_seen st k = true →
      is_seen (found.foldl (processListing cfg ts) (st, ns)).1 k = true := by
  induction found with
  | nil => intro st ns k h; exact h
  | cons a rest ih =>
    intro st ns k h
    simp only [List.foldl_cons]
    have h2 := processListing_mono cfg ts (st, ns) a k h
    have := ih (processListing cfg ts (st, ns) a).1 (processListing cfg ts (st, ns) a).2 k h2
    simpa using this

/-- One listing is settled with respect to a store when the per-listing loop
is guaranteed to skip it: empty raw link, key already seen, or classifier
miss. -/
def Handled (cfg : Config) (st : Store) (l : RawListing) : Prop :=
  l.link = "" ∨ is_seen st (linkNorm l.link) = true ∨ qualifies cfg l.title l.desc = false

theorem handled_skip (cfg : Config) (ts : Nat) (st : Store) (ns : List NewMatch)
    (l : RawListing) (h : Handled cfg st l) :
    processListing cfg ts (st, ns) l = (st, ns) := by
  rcases h with h | h | h
  · simp [processListing, h]
  · simp [processListing, h]
  · simp [processListing, h]

theorem handled_mono (cfg : Config) (st st2 : Store) (l : RawListing)
    (h : Handled cfg st l)
    (hm : ∀ k, is_seen st k = true → is_seen st2 k = true) :
    Handled cfg st2 l := by
  rcases h with h | h | h
  · exact Or.inl h
  · exact Or.inr (Or.inl (hm _ h))
  · exact Or.inr (Or.inr h)

theorem processListing_handles (cfg : Config) (ts : Nat) (st : Store)
    (ns : List NewMatch) (l : RawListing) :
    Handled cfg (processListing cfg ts (st, ns) l).1 l := by
  by_cases h1 : l.link = ""
  · exact Or.inl h1
  · by_cases h2 : is_seen st (linkNorm l.link) = true
    · refine Or.inr (Or.inl ?_)
      exact processListing_mono cfg ts (st, ns) l _ h2
    · by_cases h3 : qualifies cfg l.title l.desc = true
      · refine Or.inr (Or.inl ?_)
        simp only [processListing, h1, if_neg h1]
        rw [if_neg h2, if_pos h3]
        exact is_seen_mark _ _ _ _ _ _
      · exact Or.inr (Or.inr (by simpa using h3))

theorem run_handles (cfg : Config) (ts : Nat) (found : List RawListing) :
    ∀ (st : Store) (ns : List NewMatch) (l : RawListing), l ∈ found →
      Handled cfg (found.foldl (processListing cfg ts) (st, ns)).1 l := by
  induction found with
  | nil => intro st ns l h; cases h
  | cons a rest ih =>
    intro st ns l h
    simp only [List.foldl_cons]
    rcases List.mem_cons.mp h with h | h
    · subst h
      have h1 := processListing_handles cfg ts st ns l
      refine handled_mono cfg _ _ l h1 ?_
      intro k hk
      have := foldl_is_seen_mono cfg ts rest (processListing cfg ts (st, ns) l).1
        (processListing cfg ts (st, ns) l).2 k hk
      simpa using this
    · have := ih (processListing cfg ts (st, ns) a).1 (processListing cfg ts (st, ns) a).2 l h
      simpa using this

theorem handled_run_id (cfg : Config) (ts : Nat) (found : List RawListing) :
    ∀ (st : Store) (ns : List NewMatch), (∀ l ∈ found, Handled cfg st l) →
      found.foldl (processListing cfg ts) (st, ns) = (st, ns) := by
  induction found with
  | nil => intro st ns _; rfl
  | cons a rest ih =>
    intro st ns h
    simp only [List.foldl_cons]
    rw [handled_skip cfg ts st ns a (h a (List.mem_cons_self a rest))]
    exact ih st ns (fun l hl => h l (List.mem_cons_of_mem a hl))

theorem news_recorded (cfg : Config) (ts : Nat) (found : List RawListing) :
    ∀ (st : Store) (ns : List NewMatch),
      (∀ m ∈ ns, is_seen st m.link = true) →
      ∀ m ∈ (found.foldl (processListing cfg ts) (st, ns)).2,
        is_seen (found.foldl (processListing cfg ts) (st, ns)).1 m.link = true := by
  induction found with
  | nil => intro st ns h m hm; exact h m hm
  | cons a rest ih =>
    intro st ns h m hm
    simp only [List.foldl_cons] at hm ⊢
    have hstep : ∀ m2 ∈ (processListing cfg ts (st, ns) a).2,
        is_seen (processListing cfg ts (st, ns) a).1 m2.link = true := by
      intro m2 hm2
      by_cases h1 : a.link = ""
      · simp only [processListing, if_pos h1] at hm2 ⊢
        exact h m2 hm2
      · by_cases h2 : is_seen st (linkNorm a.link) = true
        · simp only [processListing, if_neg h1, if_pos h2] at hm2 ⊢
          exact h m2 hm2
        · by_cases h3 : qualifies cfg a.title a.desc = true
          · simp only [processListing, if_neg h1, if_neg h2, if_pos h3] at hm2 ⊢
            rcases List.mem_append.mp hm2 with hm2 | hm2
            · exact is_seen_mark_mono _ _ _ _ _ _ _ (h m2 hm2)
            · simp only [List.mem_singleton] at hm2
              subst hm2
              exact is_seen_mark _ _ _ _ _ _
          · simp only [processListing, if_neg h1, if_neg h2, if_neg h3] at hm2 ⊢
            exact h m2 hm2
    have := ih (processListing cfg ts (st, ns) a).1 (processListing cfg ts (st, ns) a).2
      hstep m (by simpa using hm)
    simpa using this

/- ----------------------------------------------------------------
   Dispatch loop lemmas.
   ---------------------------------------------------------------- -/

theorem dispatchFrom_le (cap : Int) (send : NewMatch → Bool) (ms : List NewMatch) :
    ∀ count : Nat, (count : Int) ≤ cap →
      ((dispatchFrom cap send ms count).2 : Int) ≤ cap := by
  induction ms with
  | nil => intro count h; exact h
  | cons m rest ih =>
    intro count h
    simp only [dispatchFrom]
    split
    · exact h
    · rename_i hlt
      push_neg at hlt
      by_cases hs : send m = true
      · simp only [hs, if_true]
        exact ih (count + 1) (by push_cast; omega)
      · simp only [Bool.not_eq_true] at hs
        simp only [hs, if_false]
        exact ih count h

theorem dispatchFrom_stop (cap : Int) (send : NewMatch → Bool) (ms : List NewMatch) :
    ∀ count : Nat, (count : Int) ≤ cap →
      (dispatchFrom cap send ms count).1 < ms.length →
      ((dispatchFrom cap send ms count).2 : Int) = cap := by
  induction ms with
  | nil =>
    intro count _ h
    simp [dispatchFrom] at h
  | cons m rest ih =>
    intro count hle h
    simp only [dispatchFrom, List.length_cons] at h ⊢
    by_cases hcap : cap ≤ (count : Int)
    · rw [if_pos hcap] at h ⊢
      omega
    · rw [if_neg hcap] at h ⊢
      by_cases hs : send m = true
      · simp only [hs, if_true] at h ⊢
        exact ih (count + 1) (by push_cast; omega) (by omega)
      · simp only [Bool.not_eq_true] at hs
        simp only [hs, Bool.false_eq_true, if_false] at h ⊢
        exact ih count hle (by omega)

/- ----------------------------------------------------------------
   Link normalization lemmas.
   ---------------------------------------------------------------- -/

theorem splitQ_no_q (cs : List Char) : '?' ∉ splitQ cs := by
  induction cs with
  | nil => simp [splitQ]
  | cons c cs ih =>
    simp only [splitQ]
    split
    · simp
    · rename_i h
      intro hmem
      rcases List.mem_cons.mp hmem with h2 | h2
      · exact h h2.symm
      · exact ih h2

theorem splitQ_decomp (cs : List Char) :
    ∃ rest, cs = splitQ cs ++ rest ∧ (rest = [] ∨ ∃ r2, rest = '?' :: r2) := by
  induction cs with
  | nil => exact ⟨[], rfl, Or.inl rfl⟩
  | cons c cs ih =>
    by_cases h : c = '?'
    · subst h
      exact ⟨'?' :: cs, by simp [splitQ], Or.inr ⟨cs, rfl⟩⟩
    · obtain ⟨rest, h1, h2⟩ := ih
      refine ⟨rest, ?_, h2⟩
      simp only [splitQ, if_neg h, List.cons_append]
      rw [← h1]

/- ----------------------------------------------------------------
   Template substitution lemmas.
   ---------------------------------------------------------------- -/

theorem takeWhile_to_close (ns cs : List Char) (h : ∀ c ∈ ns, c ≠ '\x7d') :
    (ns ++ '\x7d' :: cs).takeWhile (fun d => d ≠ '\x7d') = ns := by
  induction ns with
  | nil => simp [List.takeWhile_cons]
  | cons c ns ih =>
    have hc : c ≠ '\x7d' := h c (List.mem_cons_self c ns)
    have ih2 := ih (fun d hd => h d (List.mem_cons_of_mem c hd))
    simp only [decide_not] at ih2
    simp [List.takeWhile_cons, hc, ih2]

theorem dropWhile_to_close (ns cs : List Char) (h : ∀ c ∈ ns, c ≠ '\x7d') :
    (ns ++ '\x7d' :: cs).dropWhile (fun d => d ≠ '\x7d') = '\x7d' :: cs := by
  induction ns with
  | nil => simp [List.dropWhile_cons]
  | cons c ns ih =>
    have hc : c ≠ '\x7d' := h c (List.mem_cons_self c ns)
    have ih2 := ih (fun d hd => h d (List.mem_cons_of_mem c hd))
    simp only [decide_not] at ih2
    simp [List.dropWhile_cons, hc, ih2]

theorem formatAux_lit (lk : String → Option String) (f : Nat) (c : Char) (cs : List Char)
    (h1 : c ≠ '\x7b') (h2 : c ≠ '\x7d') :
    formatAux lk (f + 1) (c :: cs) = (formatAux lk f cs).map (fun r => c :: r) := by
  simp [formatAux, h1, h2]

theorem formatAux_hole (lk : String → Option String) (f : Nat) (n v : String) (cs : List Char)
    (hn : ∀ c ∈ n.toList, c ≠ '\x7b' ∧ c ≠ '\x7d')
    (hv : lk n = some v) :
    formatAux lk (f + 1) ('\x7b' :: (n.toList ++ '\x7d' :: cs)) =
      (formatAux lk f cs).map (fun r => v.toList ++ r) := by
  have hnb : ∀ c ∈ n.toList, c ≠ '\x7d' := fun c hc => (hn c hc).2
  have hh : (n.toList ++ '\x7d' :: cs).head? ≠ some '\x7b' := by
    cases hl : n.toList with
    | nil => simp
    | cons c0 ns =>
      simp only [List.cons_append, List.head?_cons]
      intro hsome
      injection hsome with hsome2
      exact (hn c0 (by rw [hl]; exact List.mem_cons_self c0 ns)).1 hsome2
  simp only [formatAux, if_pos rfl, if_neg hh]
  rw [dropWhile_to_close n.toList cs hnb, takeWhile_to_close n.toList cs hnb]
  simp [mk_toList, hv]

theorem formatAux_litrun (lk : String → Option String) (l : List Char)
    (h : ∀ c ∈ l, c ≠ '\x7b' ∧ c ≠ '\x7d') :
    ∀ (f : Nat) (rest : List Char),
      formatAux lk (l.length + f) (l ++ rest) =
        (formatAux lk f rest).map (fun r => l ++ r) := by
  induction l with
  | nil =>
    intro f rest
    simp only [List.length_nil, Nat.zero_add, List.nil_append, List.nil_append]
    cases formatAux lk f rest <;> simp
  | cons c l ih =>
    intro f rest
    have hc := h c (List.mem_cons_self c l)
    have hl := fun d hd => h d (List.mem_cons_of_mem c hd)
    have harith : (c :: l).length + f = (l.length + f) + 1 := by
      simp [List.length_cons]
      omega
    rw [harith, List.cons_append,
      formatAux_lit lk (l.length + f) c (l ++ rest) hc.1 hc.2, ih hl f rest]
    cases formatAux lk f rest <;> simp

/- ----------------------------------------------------------------
   Structured templates: a list of literal runs and placeholder fields.
   flattening gives the template text, rendering gives what Python's
   str.format produces on it.
   ---------------------------------------------------------------- -/

/-- A template piece: a literal run or one placeholder field. -/
inductive Seg where
  | lit : String → Seg
  | hole : String → Seg

/-- The template text a segment denotes. -/
def segText : Seg → List Char
  | .lit s => s.toList
  | .hole n => '\x7b' :: (n.toList ++ ['\x7d'])

/-- The characters of the whole template. -/
def flattenL (segs : List Seg) : List Char :=
  match segs with
  | [] => []
  | s :: rest => segText s ++ flattenL rest

/-- What substitution produces for one segment under a dictionary. -/
def segValue (lk : String → Option String) : Seg → List Char
  | .lit s => s.toList
  | .hole n => ((lk n).getD "").toList

/-- What substitution produces for the whole template. -/
def renderL (lk : String → Option String) (segs : List Seg) : List Char :=
  match segs with
  | [] => []
  | s :: rest => segValue lk s ++ renderL lk rest

/-- A segment fit for substitution: literal runs carry no brace characters
and fields name a key present in the dictionary. -/
def SegOK (lk : String → Option String) : Seg → Prop
  | .lit s => ∀ c ∈ s.toList, c ≠ '\x7b' ∧ c ≠ '\x7d'
  | .hole n => (∀ c ∈ n.toList, c ≠ '\x7b' ∧ c ≠ '\x7d') ∧ ∃ v, lk n = some v

/-- Fuel consumed by the scanner on one segment. -/
def segFuel : Seg → Nat
  | .lit s => s.toList.length
  | .hole _ => 1

/-- Fuel consumed by the scanner on a segment list. -/
def segsFuel (segs : List Seg) : Nat :=
  match segs with
  | [] => 0
  | s :: rest => segFuel s + segsFuel rest

theorem segsFuel_le_length (segs : List Seg) :
    segsFuel segs ≤ (flattenL segs).length := by
  induction segs with
  | nil => simp [segsFuel, flattenL]
  | cons s rest ih =>
    simp only [segsFuel, flattenL, List.length_append]
    have hs : segFuel s ≤ (segText s).length := by
      cases s with
      | lit str => simp [segFuel, segText]
      | hole n => simp [segFuel, segText]
    omega

theorem formatAux_segs (lk : String → Option String) (segs : List Seg)
    (h : ∀ s ∈ segs, SegOK lk s) :
    ∀ (f : Nat) (rest : List Char),
      formatAux lk (segsFuel segs + f) (flattenL segs ++ rest) =
        (formatAux lk f rest).map (fun r => renderL lk segs ++ r) := by
  induction segs with
  | nil =>
    intro f rest
    simp only [segsFuel, flattenL, renderL, Nat.zero_add, List.nil_append]
    cases formatAux lk f rest <;> simp
  | cons s rest1 ih =>
    intro f rest
    have hs := h s (List.mem_cons_self s rest1)
    have hr := fun s2 hs2 => h s2 (List.mem_cons_of_mem s hs2)
    cases s with
    | lit str =>
      have harith : segsFuel (Seg.lit str :: rest1) + f =
          str.toList.length + (segsFuel rest1 + f) := by
        simp only [segsFuel, segFuel]
        omega
      simp only [flattenL, renderL, segText, segValue, List.append_assoc]
      rw [harith, formatAux_litrun lk str.toList hs (segsFuel rest1 + f)
        (flattenL rest1 ++ rest), ih hr f rest]
      cases formatAux lk f rest <;> simp
    | hole n =>
      obtain ⟨hn, v, hv⟩ := hs
      have harith : segsFuel (Seg.hole n :: rest1) + f =
          (segsFuel rest1 + f) + 1 := by
        simp only [segsFuel, segFuel]
        omega
      have hshape : flattenL (Seg.hole n :: rest1) ++ rest =
          '\x7b' :: (n.toList ++ '\x7d' :: (flattenL rest1 ++ rest)) := by
        simp [flattenL, segText]
      rw [harith, hshape,
        formatAux_hole lk (segsFuel rest1 + f) n v (flattenL rest1 ++ rest) hn hv,
        ih hr f rest]
      have hval : renderL lk (Seg.hole n :: rest1) = v.toList ++ renderL lk rest1 := by
        simp [renderL, segValue, hv]
      rw [hval]
      cases formatAux lk f rest <;> simp

theorem pyFormat_flatten (cfg : Config) (segs : List Seg)
    (h : ∀ s ∈ segs, SegOK (lookupKw (format_kwargs cfg)) s) :
    pyFormat cfg (String.mk (flattenL segs)) =
      some (String.mk (renderL (lookupKw (format_kwargs cfg)) segs)) := by
  have hle := segsFuel_le_length segs
  have harith : (flattenL segs).length + 1 =
      segsFuel segs + ((flattenL segs).length - segsFuel segs + 1) := by omega
  simp only [pyFormat, toList_mk]
  rw [harith]
  have hmain := formatAux_segs (lookupKw (format_kwargs cfg)) segs h
    ((flattenL segs).length - segsFuel segs + 1) []
  rw [List.append_nil] at hmain
  rw [hmain]
  simp [formatAux]

theorem resolveTemplate_flatten (cfg : Config) (segs : List Seg)
    (h : ∀ s ∈ segs, SegOK (lookupKw (format_kwargs cfg)) s) :
    resolveTemplate cfg (String.mk (flattenL segs)) =
      String.mk (renderL (lookupKw (format_kwargs cfg)) segs) := by
  simp [resolveTemplate, pyFormat_flatten cfg segs h]

theorem resolveTemplate_no_braces (cfg : Config) (t : String)
    (h : ∀ c ∈ t.toList, c ≠ '\x7b' ∧ c ≠ '\x7d') :
    resolveTemplate cfg t = t := by
  have h2 := formatAux_litrun (lookupKw (format_kwargs cfg)) t.toList h 1 []
  rw [List.append_nil] at h2
  have h3 : pyFormat cfg t = some t := by
    simp only [pyFormat]
    rw [h2]
    simp [formatAux, mk_toList]
  simp [resolveTemplate, h3]

/-- The placeholder names a template may use: exactly the keys of
format_kwargs. -/
def RecognizedSeg (cfg : Config) : Seg → Prop
  | .lit s => ∀ c ∈ s.toList, c ≠ '\x7b' ∧ c ≠ '\x7d'
  | .hole n => ∃ v, lookupKw (format_kwargs cfg) n = some v

theorem lookupKw_mem (ps : List (String × String)) (n v : String)
    (h : lookupKw ps n = some v) : ∃ p ∈ ps, p.1 = n := by
  induction ps with
  | nil => simp [lookupKw] at h
  | cons p rest ih =>
    simp only [lookupKw] at h
    by_cases h1 : n = p.1
    · exact ⟨p, List.mem_cons_self p rest, h1.symm⟩
    · rw [if_neg h1] at h
      obtain ⟨q, hq, hq2⟩ := ih h
      exact ⟨q, List.mem_cons_of_mem p hq, hq2⟩

theorem lookup_name_braceless (cfg : Config) (n v : String)
    (h : lookupKw (format_kwargs cfg) n = some v) :
    ∀ c ∈ n.toList, c ≠ '\x7b' ∧ c ≠ '\x7d' := by
  obtain ⟨p, hp, hn⟩ := lookupKw_mem _ n v h
  subst hn
  simp only [format_kwargs, List.mem_cons, List.not_mem_nil, or_false] at hp
  rcases hp with hp | hp | hp | hp | hp | hp | hp | hp | hp | hp
  all_goals subst hp
  all_goals dsimp only
  all_goals decide

theorem recognized_ok (cfg : Config) (s : Seg) (h : RecognizedSeg cfg s) :
    SegOK (lookupKw (format_kwargs cfg)) s := by
  cases s with
  | lit str => exact h
  | hole n =>
    obtain ⟨v, hv⟩ := h
    exact ⟨lookup_name_braceless cfg n v hv, v, hv⟩

/- ----------------------------------------------------------------
   Concrete fixtures used by witnesses and counterexamples.
   ---------------------------------------------------------------- -/

set_option maxRecDepth 10000

/-- A small configuration: no brand phrases, one keyword. -/
def cfgEx : Config := ⟨[], ["unfall"], 2020, 2025, 0, 150000, 5000, 25000⟩

/-- The configuration of the spec example for template substitution. -/
def cfgKw : Config := ⟨[], ["unfall", "blech"], 2020, 2025, 0, 150000, 5000, 25000⟩

/-- A listing whose link carries query string x=1. -/
def lQ1 : RawListing := ⟨"s", "unfall auto", "https://s/a?x=1", "9000", "top"⟩

/-- The same listing with query string x=2. -/
def lQ2 : RawListing := ⟨"s", "unfall auto", "https://s/a?x=2", "9000", "top"⟩

/-- A listing whose raw link is only a query string, so its normalized link
is empty. -/
def lEN : RawListing := ⟨"s", "unfall", "?x=1", "", ""⟩

/-- A gateway stub that always succeeds. -/
def sendTrue : NewMatch → Bool := fun _ => true

/-- A gateway stub succeeding only on the match titled "c". -/
def sendEx3 : NewMatch → Bool := fun m => m.title = "c"

/-- Three queued matches; only the third sends successfully. -/
def mA : NewMatch := ⟨"s", "a", "l1", "", ""⟩

/-- Second queued match. -/
def mB : NewMatch := ⟨"s", "b", "l2", "", ""⟩

/-- Third queued match. -/
def mC : NewMatch := ⟨"s", "c", "l3", "", ""⟩

/-- Segments of the spec example template. -/
def segsEx : List Seg :=
  [.lit "https://x.test/search?year=", .hole "year", .lit "&kw=", .hole "kw"]

/-- A 200 response whose error marker starts only at character 300. -/
def bodyFar : String := String.mk (List.replicate 300 'a') ++ "APIKey is invalid"

/- ----------------------------------------------------------------
   Claims.
   ---------------------------------------------------------------- -/

/-- Claim C1: for a nonnegative configured cap, the number of successful
notifications of a run never exceeds the cap, and every qualifying new
match of the run (sent or capped out) has its key recorded in the store
the run leaves behind. -/
theorem C1_cap_and_recorded (cfg : Config) (ts : Nat) (store0 : Store)
    (found : List RawListing) (cap : Int) (send : NewMatch → Bool) :
    (0 ≤ cap → ((dispatch cap send (collectNew cfg ts store0 found).2).2 : Int) ≤ cap)
    ∧ ∀ m ∈ (collectNew cfg ts store0 found).2,
        is_seen (collectNew cfg ts store0 found).1 m.link = true := by
  constructor
  · intro h
    exact dispatchFrom_le cap send _ 0 (by exact_mod_cast h)
  · intro m hm
    exact news_recorded cfg ts found store0 [] (by simp) m hm

/-- Witness for C1 at a concrete run. -/
theorem C1_witness :
    ((dispatch 8 sendTrue (collectNew cfgEx 0 [] [lQ1]).2).2 : Int) ≤ 8
    ∧ is_seen (collectNew cfgEx 0 [] [lQ1]).1 "https://s/a" = true := by
  have h := C1_cap_and_recorded cfgEx 0 [] [lQ1] 8 sendTrue
  refine ⟨h.1 (by decide), ?_⟩
  exact h.2 ⟨"s", "unfall auto", "https://s/a", "9000", "top"⟩ (by decide)

/-- Claim C2: the classifier qualifies a listing exactly when some brand
phrase or some keyword phrase is a case-insensitive substring of the
space-joined title and description, and a listing that qualifies neither
way leaves the store and the new-matches list untouched. -/
theorem C2_classifier_or (cfg : Config) (title desc : String) :
    (qualifies cfg title desc = true ↔
      ((∃ b ∈ cfg.brands, matchesCI b (title ++ " " ++ desc))
        ∨ (∃ k ∈ cfg.keywords, matchesCI k (title ++ " " ++ desc))))
    ∧ (∀ (ts : Nat) (st : Store) (ns : List NewMatch) (l : RawListing),
        qualifies cfg l.title l.desc = false →
        processListing cfg ts (st, ns) l = (st, ns)) := by
  constructor
  · have hne := textpool_ne_empty title desc
    unfold qualifies brand_hit text_contains_keywords
    rw [if_neg hne]
    unfold textpool
    simp only [Bool.or_eq_true, List.any_eq_true, strIn_iff]
    rw [lowerStr_idem]
    exact Iff.rfl
  · intro ts st ns l h
    exact handled_skip cfg ts st ns l (Or.inr (Or.inr h))

/-- Witness for C2 at a concrete configuration and listing. -/
theorem C2_witness :
    (qualifies cfgEx "unfall auto" "top" = true)
    ∧ processListing cfgEx 0 ([], []) ⟨"s", "plain", "http://a", "1", "car"⟩ = ([], []) := by
  refine ⟨?_, ?_⟩
  · exact (C2_classifier_or cfgEx "unfall auto" "top").1.mpr
      (Or.inr ⟨"unfall", by decide, (strIn_iff _ _).mp (by decide)⟩)
  · exact (C2_classifier_or cfgEx "x" "y").2 0 [] [] _ (by decide)

/-- Claim C3: the dedup key is the link up to (excluding) its first
question mark — it contains no question mark and the link is the key
followed by nothing or by a question-mark-led remainder — a listing whose
key is already stored is skipped without any change, and the two example
links collapse to one stored record with the second occurrence suppressed. -/
theorem C3_dedup_key_strips_query :
    (∀ link : String, ('?' ∉ (linkNorm link).toList)
      ∧ ∃ rest, link.toList = (linkNorm link).toList ++ rest
          ∧ (rest = [] ∨ ∃ r2, rest = '?' :: r2))
    ∧ (∀ (cfg : Config) (ts : Nat) (st : Store) (ns : List NewMatch) (l : RawListing),
        is_seen st (linkNorm l.link) = true →
        processListing cfg ts (st, ns) l = (st, ns))
    ∧ linkNorm "https://s/a?x=1" = linkNorm "https://s/a?x=2"
    ∧ collectNew cfgEx 0 [] [lQ1, lQ2] =
        ([⟨"https://s/a", "unfall auto", "s", "9000", 0⟩],
         [⟨"s", "unfall auto", "https://s/a", "9000", "top"⟩]) := by
  refine ⟨?_, ?_, by decide, by decide⟩
  · intro link
    constructor
    · simpa [linkNorm, toList_mk] using splitQ_no_q link.toList
    · obtain ⟨rest, h1, h2⟩ := splitQ_decomp link.toList
      exact ⟨rest, by simpa [linkNorm, toList_mk] using h1, h2⟩
  · intro cfg ts st ns l h
    exact handled_skip cfg ts st ns l (Or.inr (Or.inl h))

/-- Witness for C3: a listing whose key is already stored is skipped. -/
theorem C3_witness :
    processListing cfgEx 0 ([⟨"https://s/a", "t", "s", "p", 0⟩], []) lQ2 =
      ([⟨"https://s/a", "t", "s", "p", 0⟩], []) :=
  C3_dedup_key_strips_query.2.1 cfgEx 0 _ _ lQ2 (by decide)

/-- Claim C4 counterexample: the listing lEN has raw link "?x=1", hence an
empty normalized link, yet it is recorded under the empty key and appended
to the new-matches list handed to the dispatcher. -/
theorem C4_counterexample_empty_key_recorded :
    linkNorm lEN.link = ""
    ∧ collectNew cfgEx 0 [] [lEN] =
        ([⟨"", "unfall", "s", "", 0⟩], [⟨"s", "unfall", "", "", ""⟩]) :=
  ⟨by decide, by decide⟩

/-- Claim C4 amended: the guard tests the raw link, not the normalized
one — a listing whose raw link is empty is never recorded nor notified. -/
theorem C4_empty_raw_link_skipped (cfg : Config) (ts : Nat) (st : Store)
    (ns : List NewMatch) (l : RawListing) (h : l.link = "") :
    processListing cfg ts (st, ns) l = (st, ns) :=
  handled_skip cfg ts st ns l (Or.inl h)

/-- Witness for the amended C4. -/
theorem C4_witness :
    processListing cfgEx 0 ([], []) ⟨"s", "unfall", "", "p", "d"⟩ = ([], []) :=
  C4_empty_raw_link_skipped cfgEx 0 [] [] _ (by decide)

/-- Claim C5: Record inserts a row exactly when the key is absent, a repeat
call with the same key and any field values leaves the store unchanged, and
primary-key uniqueness is preserved by every Record. -/
theorem C5_record_insert_if_absent (store : Store) (link t1 s1 p1 : String)
    (ts1 : Nat) (t2 s2 p2 : String) (ts2 : Nat) :
    (is_seen store link = false →
      mark_seen store link t1 s1 p1 ts1 = store ++ [⟨link, t1, s1, p1, ts1⟩])
    ∧ (is_seen store link = true → mark_seen store link t1 s1 p1 ts1 = store)
    ∧ (mark_seen (mark_seen store link t1 s1 p1 ts1) link t2 s2 p2 ts2 =
        mark_seen store link t1 s1 p1 ts1)
    ∧ ((store.map SeenRow.link).Nodup →
        ((mark_seen store link t1 s1 p1 ts1).map SeenRow.link).Nodup) := by
  refine ⟨?_, ?_, ?_, ?_⟩
  · intro h
    simp [mark_seen, h]
  · intro h
    simp [mark_seen, h]
  · have h2 := is_seen_mark store link t1 s1 p1 ts1
    conv_lhs => rw [mark_seen]
    rw [if_pos h2]
  · intro h
    unfold mark_seen
    split
    · exact h
    · rename_i h2
      simp only [Bool.not_eq_true, is_seen, List.any_eq_false, decide_eq_true_eq] at h2
      rw [List.map_append]
      simp only [List.map_cons, List.map_nil]
      rw [List.nodup_append]
      refine ⟨h, List.nodup_singleton link, ?_⟩
      intro x hx hx2
      simp only [List.mem_singleton] at hx2
      subst hx2
      obtain ⟨r, hr, hrl⟩ := List.mem_map.mp hx
      exact h2 r hr hrl

/-- Witness for C5: inserting into the empty store. -/
theorem C5_witness : mark_seen [] "k" "t" "s" "p" 0 = [⟨"k", "t", "s", "p", 0⟩] := by
  have h := (C5_record_insert_if_absent [] "k" "t" "s" "p" 0 "t2" "s2" "p2" 1).1 (by decide)
  simpa using h

/-- Claim C6: a second pass over the same extracted listings, starting from
the store the first pass produced, yields no new matches at all. -/
theorem C6_second_run_empty (cfg : Config) (ts1 ts2 : Nat) (store0 : Store)
    (found : List RawListing) :
    (collectNew cfg ts2 (collectNew cfg ts1 store0 found).1 found).2 = [] := by
  have hH : ∀ l ∈ found, Handled cfg (collectNew cfg ts1 store0 found).1 l := by
    intro l hl
    exact run_handles cfg ts1 found store0 [] l hl
  have h2 := handled_run_id cfg ts2 found (collectNew cfg ts1 store0 found).1 [] hH
  show (found.foldl (processListing cfg ts2) ((collectNew cfg ts1 store0 found).1, [])).2 = []
  rw [h2]

/-- Claim C7 counterexample: a 200 response whose body contains the marker
"APIKey is invalid" only beyond the 300-character snippet is reported as a
successful send. -/
theorem C7_counterexample_marker_beyond_snippet :
    strIn "APIKey is invalid" bodyFar = true ∧ sendOutcome 200 bodyFar = true :=
  ⟨by decide, by decide⟩

/-- Claim C7 amended: dispatch reports success exactly when the status is
200 and neither error marker occurs within the first 300 characters of the
body (the marker check is limited to that snippet). -/
theorem C7_success_iff_clean_snippet (status : Nat) (body : String) :
    sendOutcome status body = true ↔
      (status = 200
        ∧ ¬ ("APIKey is invalid".toList <:+: (strTake body 300).toList)
        ∧ ¬ ("error".toList <:+: (lowerStr (strTake body 300)).toList)) := by
  rw [← strIn_iff "APIKey is invalid" (strTake body 300),
    ← strIn_iff "error" (lowerStr (strTake body 300))]
  by_cases hs : status = 200
  · subst hs
    simp only [sendOutcome, if_pos rfl]
    by_cases h1 : strIn "APIKey is invalid" (strTake body 300) = true
    · simp [h1]
    · by_cases h2 : strIn "error" (lowerStr (strTake body 300)) = true
      · simp [h1, h2]
      · simp [h1, h2]
  · simp [sendOutcome, hs]

/-- Witness for the amended C7. -/
theorem C7_witness : sendOutcome 200 "Message queued" = true :=
  (C7_success_iff_clean_snippet 200 "Message queued").mpr ⟨rfl, by decide, by decide⟩

/-- Claim C8: on a template made only of brace-free literal runs and
recognized placeholder fields, substitution rewrites each field to its
configured value — year to MIN_YEAR, km to MAX_KM, price to MAX_PRICE, the
min_/max_ variants to their bounds, and kw to the first three keywords
joined by plus signs — leaving the literal runs intact. -/
theorem C8_template_substitution (cfg : Config) (segs : List Seg)
    (h : ∀ s ∈ segs, RecognizedSeg cfg s) :
    (resolveTemplate cfg (String.mk (flattenL segs)) =
      String.mk (renderL (lookupKw (format_kwargs cfg)) segs))
    ∧ lookupKw (format_kwargs cfg) "year" = some (toString cfg.minYear)
    ∧ lookupKw (format_kwargs cfg) "min_year" = some (toString cfg.minYear)
    ∧ lookupKw (format_kwargs cfg) "max_year" = some (toString cfg.maxYear)
    ∧ lookupKw (format_kwargs cfg) "km" = some (toString cfg.maxKm)
    ∧ lookupKw (format_kwargs cfg) "min_km" = some (toString cfg.minKm)
    ∧ lookupKw (format_kwargs cfg) "max_km" = some (toString cfg.maxKm)
    ∧ lookupKw (format_kwargs cfg) "price" = some (toString cfg.maxPrice)
    ∧ lookupKw (format_kwargs cfg) "min_price" = some (toString cfg.minPrice)
    ∧ lookupKw (format_kwargs cfg) "max_price" = some (toString cfg.maxPrice)
    ∧ lookupKw (format_kwargs cfg) "kw" = some (kwValue cfg.keywords)
    ∧ (cfg.keywords ≠ [] → kwValue cfg.keywords = joinPlus (cfg.keywords.take 3)) := by
  refine ⟨resolveTemplate_flatten cfg segs
    (fun s hs => recognized_ok cfg s (h s hs)),
    rfl, rfl, rfl, rfl, rfl, rfl, rfl, rfl, rfl, rfl, ?_⟩
  intro hne
  cases hk : cfg.keywords with
  | nil => exact absurd hk hne
  | cons a rest => simp [kwValue, hk]

/-- Witness for C8: the spec example template resolves as stated. -/
theorem C8_witness :
    resolveTemplate cfgKw "https://x.test/search?year=\x7byear\x7d&kw=\x7bkw\x7d" =
      "https://x.test/search?year=2020&kw=unfall+blech" := by
  have hok : ∀ s ∈ segsEx, RecognizedSeg cfgKw s := by
    intro s hs
    simp only [segsEx, List.mem_cons, List.not_mem_nil, or_false] at hs
    rcases hs with rfl | rfl | rfl | rfl
    · intro c hc
      revert c hc
      decide
    · exact ⟨toString cfgKw.minYear, rfl⟩
    · intro c hc
      revert c hc
      decide
    · exact ⟨kwValue cfgKw.keywords, rfl⟩
  have h := (C8_template_substitution cfgKw segsEx hok).1
  have e1 : String.mk (flattenL segsEx) =
      "https://x.test/search?year=\x7byear\x7d&kw=\x7bkw\x7d" := by decide
  have e2 : String.mk (renderL (lookupKw (format_kwargs cfgKw)) segsEx) =
      "https://x.test/search?year=2020&kw=unfall+blech" := by decide
  rw [e1, e2] at h
  exact h

/-- Claim C9 counterexample: the template text made of the characters
a-brace-brace-b contains none of the ten recognized placeholders, yet
substitution succeeds and collapses the doubled brace, so the resolved URL
differs from the literal template. -/
theorem C9_counterexample_double_brace :
    (["year", "min_year", "max_year", "km", "min_km", "max_km", "price",
      "min_price", "max_price", "kw"].all
        (fun n => !(strIn ("\x7b" ++ n ++ "\x7d") "a\x7b\x7bb")) = true)
    ∧ resolveTemplate cfgEx "a\x7b\x7bb" = "a\x7bb"
    ∧ "a\x7b\x7bb" ≠ "a\x7bb" :=
  ⟨by decide, by decide, by decide⟩

/-- Claim C9 amended: a template with no brace characters at all passes
through substitution unchanged, and whenever substitution raises, the
literal template is used; a brace-bearing template without recognized
placeholders may still be altered (doubled braces collapse). -/
theorem C9_fallback_unchanged (cfg : Config) (t : String) :
    ((∀ c ∈ t.toList, c ≠ '\x7b' ∧ c ≠ '\x7d') → resolveTemplate cfg t = t)
    ∧ (pyFormat cfg t = none → resolveTemplate cfg t = t) := by
  constructor
  · exact resolveTemplate_no_braces cfg t
  · intro h
    simp [resolveTemplate, h]

/-- Witness for the amended C9. -/
theorem C9_witness : resolveTemplate cfgEx "plain" = "plain" :=
  (C9_fallback_unchanged cfgEx "plain").1 (by decide)

/-- Claim C10: below the cap a failed send adds an attempt without touching
the counter and a successful send increments it; on a concrete run with cap
one, three attempts are made while only one success is counted; and when
the loop stops before exhausting the queue, the success counter has reached
the cap exactly. -/
theorem C10_only_success_counts :
    (∀ (cap : Int) (send : NewMatch → Bool) (count : Nat) (m : NewMatch)
        (rest : List NewMatch), (count : Int) < cap → send m = false →
        dispatchFrom cap send (m :: rest) count =
          ((dispatchFrom cap send rest count).1 + 1,
           (dispatchFrom cap send rest count).2))
    ∧ (∀ (cap : Int) (send : NewMatch → Bool) (count : Nat) (m : NewMatch)
        (rest : List NewMatch), (count : Int) < cap → send m = true →
        dispatchFrom cap send (m :: rest) count =
          ((dispatchFrom cap send rest (count + 1)).1 + 1,
           (dispatchFrom cap send rest (count + 1)).2))
    ∧ ((dispatch 1 sendEx3 [mA, mB, mC]).1 = 3 ∧ (dispatch 1 sendEx3 [mA, mB, mC]).2 = 1)
    ∧ (∀ (cap : Int) (send : NewMatch → Bool) (ms : List NewMatch), 0 ≤ cap →
        (dispatch cap send ms).1 < ms.length →
        ((dispatch cap send ms).2 : Int) = cap) := by
  refine ⟨?_, ?_, ⟨by decide, by decide⟩, ?_⟩
  · intro cap send count m rest h1 h2
    simp only [dispatchFrom, if_neg (not_le.mpr h1), h2, Bool.false_eq_true, if_false]
  · intro cap send count m rest h1 h2
    simp only [dispatchFrom, if_neg (not_le.mpr h1), h2, if_true]
  · intro cap send ms h1 h2
    exact dispatchFrom_stop cap send ms 0 (by exact_mod_cast h1) h2

/-- Witness for C10: a failed send attempt below the cap. -/
theorem C10_witness : dispatchFrom 2 sendEx3 [mA] 0 = (1, 0) := by
  have h := C10_only_success_counts.1 2 sendEx3 0 mA [] (by decide) (by decide)
  exact h.trans (by decide)

end MonitorAutos
